import Mathlib

/-!
# Verification of the MAP-Elites Variation Operator (src/map_elites/variation.py)

This file gives a shallow embedding of the `VariationOperator` class of
`src/map_elites/variation.py` and proves/refutes the specified properties of its
orchestration logic (`evolve_batch`, `on_eval_results`, `on_release`,
`maybe_mutate_new_batch`) and of its genetic operators (`iso_dd`,
`gaussian_mutation`, `batch_crossover`, `batch_mutation`).

Modelling conventions:
* Policy keys are `ℕ`; the free-key pool `free_policy_keys` is a `Finset ℕ`.
* `queued_for_eval` (the in-flight counter) is a Python `int`, hence `ℤ`.
* Tensors are flat lists of `ℚ` (floating point modelled by rationals); a
  state dict is an association list from tensor names to tensors.
* Random draws (`np.random.choice`, `normal_`, `rand_like`) are oracle inputs:
  the drawn values are explicit parameters, constrained in theorems exactly as
  the library guarantees (distinct keys from the free pool, mask values in
  `[0,1)`, ...).
* Side effects of one `evolve_batch` call (warning log, EvalCache writes, queue
  puts, `to_evaluate` emissions, the counter increment) are returned in an
  `EvolveOutcome` record.
-/

namespace MapElites

/-- The configuration options of the orchestrator that `evolve_batch` /
`maybe_mutate_new_batch` read (`self.cfg` in variation.py). -/
structure Config where
  random_init_batch : ℕ
  eval_batch_size : ℕ
  proportion_evo : ℚ
  mutations_per_policy : ℕ
  num_agents : ℕ
  random_init : ℕ
  deriving DecidableEq

/-- The mutable state of a `VariationOperator` instance that the claims are
about.  `crossover_configured` / `mutation_configured` model the truthiness of
`self.crossover_op` / `self.mutation_op` (a bound method is truthy, the `False`
sentinel installed for unrecognized names is falsy).  `elites_map` models
`self.elites_map.values()` as a list of `(policy_key, metadata)` pairs. -/
structure VarState where
  free_policy_keys : Finset ℕ
  queued_for_eval : ℤ
  init_mode : Bool
  elites_map : List (ℕ × ℕ)
  crossover_configured : Bool
  mutation_configured : Bool
  deriving DecidableEq

/-- State right after `VariationOperator.__init__`: `self.init_mode = True`
(line 42) and `self.queued_for_eval = 0` (line 43). -/
def initState (freeKeys : Finset ℕ) (elites : List (ℕ × ℕ))
    (cop mop : Bool) : VarState :=
  { free_policy_keys := freeKeys
    queued_for_eval := 0
    init_mode := true
    elites_map := elites
    crossover_configured := cop
    mutation_configured := mop }

/-- Embedding of `np.repeat(l, repeats=m)`: each element of `l` repeated `m`
times in place (variation.py lines 123, 128–129). -/
def repeatEach (l : List ℕ) (m : ℕ) : List ℕ :=
  l.flatMap (fun a => List.replicate m a)

/-- The candidate parent keys of one round (variation.py lines 103–110):
in bootstrap mode (`init=True`) the whole free pool
(`keys = list(self.free_policy_keys)`), in steady-state mode the policy keys
recorded in the elites map (`keys = [x[0] for x in elites_map.values()]`).
The Python list `keys` is consumed only as `set(keys)` (line 112), so the
collection is embedded as that set. -/
def candidateKeys (s : VarState) (init : Bool) : Finset ℕ :=
  if init then s.free_policy_keys else (s.elites_map.map Prod.fst).toFinset

/-- The required batch size of one round (variation.py lines 105, 109):
`cfg.random_init_batch` in bootstrap mode, otherwise
`int(cfg.eval_batch_size * cfg.proportion_evo)`.  Python `int()` truncates
toward zero; the product is nonnegative in every run (both factors are), so
truncation coincides with the floor. -/
def batchSizeOf (cfg : Config) (init : Bool) : ℕ :=
  if init then cfg.random_init_batch
  else (⌊(cfg.eval_batch_size : ℚ) * cfg.proportion_evo⌋).toNat

/-- Embedding of `free_keys = self.free_policy_keys & set(keys)`
(variation.py line 112). -/
def freeCandidates (s : VarState) (init : Bool) : Finset ℕ :=
  s.free_policy_keys ∩ candidateKeys s init

/-- The replicated first-parent key list `actor_x_ids` (variation.py lines
118–129).  `xDraw` stands for the `np.random.choice(free_keys, size=batch_size,
replace=False)` draw; keys are drawn (and then each repeated
`mutations_per_policy` times) when mutation is configured without crossover, or
whenever crossover is configured; with neither operator configured the list
stays empty. -/
def actorXIds (cfg : Config) (s : VarState) (xDraw : List ℕ) : List ℕ :=
  if s.mutation_configured && !s.crossover_configured then
    repeatEach xDraw cfg.mutations_per_policy
  else if s.crossover_configured then
    repeatEach xDraw cfg.mutations_per_policy
  else []

/-- The observable outcome of one `evolve_batch` call.
`cacheWrites` records, per unique claimed key, how many mutated children are
written into its `eval_cache` entry (lines 144–150; the cache entry of each
unique parent key holds `mutations_per_policy` slots and one reshaped row of
`mutations_per_policy` children is copied into it).  `queuePuts` records the
`eval_in_queue.put(...)` calls, `emits` the `to_evaluate.emit` flags, and
`submitted` the number of replicated keys added to `queued_for_eval`. -/
structure EvolveOutcome where
  state : VarState
  warned : Bool
  cacheWrites : List (ℕ × ℕ)
  queuePuts : List (List ℕ)
  emits : List Bool
  submitted : ℕ
  deriving DecidableEq

/-- Embedding of `VariationOperator.evolve_batch` (variation.py lines 98–153).
If the intersection of candidates with the free pool is smaller than the batch
size, warn and return (lines 113–117).  Otherwise: remove `set(actor_x_ids)`
from the free pool (line 132), write `mutations_per_policy` children into the
cache slot of each unique claimed key (lines 144–150), bump `queued_for_eval`
by `len(actor_x_ids)` (line 151), put the unique key list on the eval queue
(line 152) and emit `to_evaluate` with `self.init_mode` (line 153 — note:
the stored field, not the round's `init` argument). -/
def evolve_batch (cfg : Config) (s : VarState) (init : Bool)
    (xDraw yDraw : List ℕ) : EvolveOutcome :=
  if (freeCandidates s init).card < batchSizeOf cfg init then
    ⟨s, true, [], [], [], 0⟩
  else
    { state :=
        { s with
          free_policy_keys := s.free_policy_keys \ (actorXIds cfg s xDraw).toFinset
          queued_for_eval := s.queued_for_eval + (actorXIds cfg s xDraw).length }
      warned := false
      cacheWrites := (actorXIds cfg s xDraw).dedup.map
        (fun k => (k, cfg.mutations_per_policy))
      queuePuts := [(actorXIds cfg s xDraw).dedup]
      emits := [s.init_mode]
      submitted := (actorXIds cfg s xDraw).length }

/-- Log levels used by `utils.logger.log` in the code paths modelled here. -/
inductive LogLevel where
  | debug
  | warning
  deriving DecidableEq

/-- The single log line `on_eval_results` produces (variation.py line 88):
an unconditional `log.debug` carrying the reported count and the updated
counter value. -/
structure LogEntry where
  level : LogLevel
  numReported : ℕ
  counterValue : ℤ
  deriving DecidableEq

/-- Embedding of `VariationOperator.on_eval_results` (variation.py lines 85–88):
`queued_for_eval -= len(agents)`, then a debug log of the count and the new
counter value.  The handler is total: it never raises and never halts. -/
def on_eval_results (s : VarState) (agents : List ℕ) : VarState × LogEntry :=
  ({ s with queued_for_eval := s.queued_for_eval - agents.length },
   ⟨LogLevel.debug, agents.length, s.queued_for_eval - agents.length⟩)

/-- Embedding of `VariationOperator.on_release` (variation.py lines 90–91):
`self.free_policy_keys.update(mapped_actors_keys)`. -/
def on_release (s : VarState) (keys : Finset ℕ) : VarState :=
  { s with free_policy_keys := s.free_policy_keys ∪ keys }

/-- Embedding of `VariationOperator.maybe_mutate_new_batch` (variation.py
lines 93–96):
below the `2 * cfg.num_agents` watermark, run one round whose bootstrap flag is
`len(elites_map) <= cfg.random_init`; otherwise do nothing. -/
def maybe_mutate_new_batch (cfg : Config) (s : VarState)
    (xDraw yDraw : List ℕ) : EvolveOutcome :=
  if s.queued_for_eval < 2 * (cfg.num_agents : ℤ) then
    evolve_batch cfg s (decide (s.elites_map.length ≤ cfg.random_init))
      xDraw yDraw
  else ⟨s, false, [], [], [], 0⟩

/-! ## Genetic operator library -/

/-- Embedding of `torch.clamp(v, lo, hi)` on one scalar: the lower bound is
applied first, then the upper bound (so with `lo > hi` every element becomes
`hi`, as torch specifies). -/
def clampQ (lo hi v : ℚ) : ℚ :=
  min hi (max lo v)

/-- Elementwise combination `z = x + a + b * (y - x)` of `iso_dd`
(variation.py line 223), with `a` the per-element isotropic noise tensor and
`b` the per-call line-noise scalar. -/
def isoCombine (b : ℚ) : List ℚ → List ℚ → List ℚ → List ℚ
  | x :: xs, y :: ys, a :: as2 => (x + a + b * (y - x)) :: isoCombine b xs ys as2
  | _, _, _ => []

/-- Embedding of `VariationOperator.iso_dd` (variation.py lines 212–229).
`a` stands for the draw `torch.zeros_like(x).normal_(0, iso_sigma)` and `b`
for the single per-call scalar `np.random.normal(0, line_sigma)`.
Clamping (lines 225–229): with `not self.max and not self.min` the result is
returned unclamped; otherwise `torch.clamp(z, self.min, self.max)` runs.
A falsy bound (`False`, the constructor default, or `0.0`) is modelled as
`none`; when exactly one bound is truthy the other one enters `torch.clamp`
as the number `0` (Python `False == 0`). -/
def iso_dd (mn mx : Option ℚ) (a : List ℚ) (b : ℚ) (x y : List ℚ) : List ℚ :=
  let z := isoCombine b x y a
  match mx, mn with
  | none, none => z
  | _, _ => z.map (clampQ (mn.getD 0) (mx.getD 0))

/-- Core of `gaussian_mutation` on the row-major flattening of the tensor:
walk the elements together with the uniform mask draw `m`
(`torch.rand_like(y)`), and add the next unused noise sample (`delta`, drawn
one sample per selected element, consumed in row-major order — the order in
which `torch.where` reports indices) exactly at the positions with
`m < mutation_rate`.  `k` is the index of the next unused noise sample. -/
def gmutCore (rate : ℚ) (noise : ℕ → ℚ) : ℕ → List ℚ → List ℚ → List ℚ
  | _, [], _ => []
  | _, x :: xs, [] => x :: xs
  | k, x :: xs, m :: ms =>
    if m < rate then (x + noise k) :: gmutCore rate noise (k + 1) xs ms
    else x :: gmutCore rate noise k xs ms

/-- Number of selected positions (`m < rate`), i.e. `index[0].shape[0]` in
variation.py line 244: how many noise samples `gaussian_mutation` draws. -/
def selCount (rate : ℚ) : List ℚ → List ℚ → ℕ
  | [], _ => 0
  | _ :: _, [] => 0
  | _ :: xs, m :: ms => (if m < rate then 1 else 0) + selCount rate xs ms

/-- Embedding of `VariationOperator.gaussian_mutation` (variation.py lines
236–255) on a rank-1 tensor.  `m` stands for the `torch.rand_like(y)` draw
(values in `[0,1)`) and `noise k` for the `k`-th sample of
`torch.zeros(index[0].shape).normal_(0, sigma)`.  The final clamp follows the
same `not self.max and not self.min` pattern as `iso_dd` (lines 252–255). -/
def gaussian_mutation (rate : ℚ) (mn mx : Option ℚ) (noise : ℕ → ℚ)
    (x m : List ℚ) : List ℚ :=
  let y := gmutCore rate noise 0 x m
  match mx, mn with
  | none, none => y
  | _, _ => y.map (clampQ (mn.getD 0) (mx.getD 0))

/-- Rebuild a rank-2 tensor from its row-major flattening, using the row
lengths of `shape`. -/
def reshapeLike (shape : List (List ℚ)) (flat : List ℚ) : List (List ℚ) :=
  match shape with
  | [] => []
  | r :: rs => flat.take r.length :: reshapeLike rs (flat.drop r.length)

/-- Embedding of `gaussian_mutation` on a rank-2 tensor: the mask, the
selected indices reported by `torch.where` and the scatter-add all operate in
row-major order, so the rank-2 case is the rank-1 case on the flattening,
reshaped back. -/
def gaussian_mutation2 (rate : ℚ) (mn mx : Option ℚ) (noise : ℕ → ℚ)
    (x m : List (List ℚ)) : List (List ℚ) :=
  reshapeLike x (gaussian_mutation rate mn mx noise x.flatten m.flatten)

/-- Rebuild a rank-3 tensor from its row-major flattening. -/
def reshapeLike3 (shape : List (List (List ℚ))) (flat : List ℚ) :
    List (List (List ℚ)) :=
  match shape with
  | [] => []
  | r :: rs =>
    reshapeLike r (flat.take r.flatten.length) ::
      reshapeLike3 rs (flat.drop r.flatten.length)

/-- Embedding of `gaussian_mutation` on a rank-3 tensor (the batched-model
stack layout of variation.py lines 249–251), again via the row-major
flattening. -/
def gaussian_mutation3 (rate : ℚ) (mn mx : Option ℚ) (noise : ℕ → ℚ)
    (x m : List (List (List ℚ))) : List (List (List ℚ)) :=
  reshapeLike3 x
    (gaussian_mutation rate mn mx noise (x.map List.flatten).flatten
      (m.map List.flatten).flatten)

/-! ## State dicts, `batch_crossover`, `batch_mutation`, `evo` -/

/-- Does the character list start with the given pattern? -/
def leadsList (pat : List Char) (s : List Char) : Bool :=
  match pat, s with
  | [], _ => true
  | _ :: _, [] => false
  | a :: ps, b :: ss => a == b && leadsList ps ss

/-- Does the character list contain the pattern as a contiguous run? -/
def hasSub (pat : List Char) : List Char → Bool
  | [] => leadsList pat []
  | c :: cs => leadsList pat (c :: cs) || hasSub pat cs

/-- Python membership test `'bias' in tensor` on the tensor name. -/
def biasInName (tensor : String) : Bool :=
  hasSub "bias".toList tensor.toList

/-- Truthiness of the Python condition `'weight' or 'bias' in tensor`
(variation.py lines 201 and 208).  Python evaluates the truthiness of the
left operand of `or` first; the string literal `'weight'` is nonempty, hence
truthy, so the disjunction short-circuits to it and the membership test is
never consulted: the condition holds for every tensor name. -/
def weightOrBiasCond (tensor : String) : Bool :=
  if ("weight" : String) ≠ "" then true else biasInName tensor

/-- Named-tensor parameter state (`state_dict()`): an association list from
tensor name to the (flattened, batched) tensor. -/
abbrev StateDict := List (String × List ℚ)

/-- Embedding of `VariationOperator.batch_crossover` (variation.py lines
194–203): start from a deep copy of `x`, and for every tensor name satisfying
the condition overwrite it with `crossover_op(x[tensor], y[tensor])`.  A name
missing from `y` would raise `KeyError` in Python; the claims only consider
schema-matching dicts, where the lookup succeeds. -/
def batch_crossover (crossover_op : List ℚ → List ℚ → List ℚ)
    (x y : StateDict) : StateDict :=
  x.map (fun p =>
    if weightOrBiasCond p.1 then (p.1, crossover_op p.2 ((y.lookup p.1).getD []))
    else p)

/-- Embedding of `VariationOperator.batch_mutation` (variation.py lines
205–210): a deep copy of `x` with every tensor satisfying the condition
replaced by `mutation_op(x[tensor])`. -/
def batch_mutation (mutation_op : List ℚ → List ℚ) (x : StateDict) : StateDict :=
  x.map (fun p => if weightOrBiasCond p.1 then (p.1, mutation_op p.2) else p)

/-- Embedding of `VariationOperator.evo` (variation.py lines 165–192) at the
state-dict level: the child starts as a deep copy of `x`; with crossover
configured the dict becomes `batch_crossover(x, y)`, with mutation on top when
also configured; with only mutation configured, `batch_mutation(x)`; with
neither, the copy of `x` itself. -/
def evo (x y : StateDict) (crossover_op : Option (List ℚ → List ℚ → List ℚ))
    (mutation_op : Option (List ℚ → List ℚ)) : StateDict :=
  match crossover_op with
  | some c =>
    match mutation_op with
    | some mo => batch_mutation mo (batch_crossover c x y)
    | none => batch_crossover c x y
  | none =>
    match mutation_op with
    | some mo => batch_mutation mo x
    | none => x

/-! ## Construction-time operator resolution (variation.py lines 46–56) -/

/-- The candidate operator methods of `VariationOperator` that the
recognized-name lists refer to.  `iso_dd` and `gaussian_mutation` are defined
in src/map_elites/variation.py.
Modelled from the spec: the bodies of `sbx`, `polynomial_mutation` and
`uniform_mutation` are repository code not present under src/ (only the
recognized-name lists at lines 46 and 52 that reference them are); spec
sections 4.2 and 7 document them as implemented operators resolved at
construction, so the method table lists them as present. -/
inductive OperatorFn where
  | iso_dd
  | sbx
  | polynomial_mutation
  | gaussian_mutation
  | uniform_mutation
  deriving DecidableEq

/-- Result of `getattr(self, name)` over the operator method table. -/
def varOpMethods (name : String) : Option OperatorFn :=
  if name = "iso_dd" then some OperatorFn.iso_dd
  else if name = "sbx" then some OperatorFn.sbx
  else if name = "polynomial_mutation" then some OperatorFn.polynomial_mutation
  else if name = "gaussian_mutation" then some OperatorFn.gaussian_mutation
  else if name = "uniform_mutation" then some OperatorFn.uniform_mutation
  else none

/-- How one stage of the pipeline is initialized: either a concrete bound
operator method, or the no-op sentinel `False`. -/
inductive StageInit where
  | op (f : OperatorFn)
  | sentinel
  deriving DecidableEq

/-- One stage after construction: the installed value and whether the
construction logged a warning for it. -/
structure StageResolution where
  stage : StageInit
  warned : Bool
  deriving DecidableEq

/-- Embedding of the crossover-stage setup of `VariationOperator.__init__`
(variation.py lines 46–50): a recognized name is resolved with
`getattr(self, name)` (an `AttributeError` would be a hard failure), any
other name logs a warning and installs the sentinel `False`. -/
def resolveCrossoverOp (name : String) : Except String StageResolution :=
  if name = "sbx" ∨ name = "iso_dd" then
    match varOpMethods name with
    | some f => Except.ok ⟨StageInit.op f, false⟩
    | none => Except.error "AttributeError"
  else Except.ok ⟨StageInit.sentinel, true⟩

/-- Embedding of the mutation-stage setup of `VariationOperator.__init__`
(variation.py lines 52–56). -/
def resolveMutationOp (name : String) : Except String StageResolution :=
  if name = "polynomial_mutation" ∨ name = "gaussian_mutation" ∨
      name = "uniform_mutation" then
    match varOpMethods name with
    | some f => Except.ok ⟨StageInit.op f, false⟩
    | none => Except.error "AttributeError"
  else Except.ok ⟨StageInit.sentinel, true⟩

/-! ## Interleaved submission / completion sequences (for the counter) -/

/-- One externally observable step touching the in-flight counter: either a
timer-driven `evolve_batch` call (with its random draws) or an
`on_eval_results` notification from an evaluator. -/
inductive SeqEvent where
  | submit (init : Bool) (xDraw yDraw : List ℕ)
  | results (agents : List ℕ)

/-- Run an interleaved sequence of `evolve_batch` and `on_eval_results`
calls from a state.  Returns the final state together with the total number
of replicated keys submitted for evaluation and the total number of agents
reported back. -/
def runSeq (cfg : Config) : VarState → List SeqEvent → VarState × ℕ × ℕ
  | s, [] => (s, 0, 0)
  | s, SeqEvent.submit init xD yD :: rest =>
    ((runSeq cfg (evolve_batch cfg s init xD yD).state rest).1,
      (evolve_batch cfg s init xD yD).submitted +
        (runSeq cfg (evolve_batch cfg s init xD yD).state rest).2.1,
      (runSeq cfg (evolve_batch cfg s init xD yD).state rest).2.2)
  | s, SeqEvent.results agents :: rest =>
    ((runSeq cfg (on_eval_results s agents).1 rest).1,
      (runSeq cfg (on_eval_results s agents).1 rest).2.1,
      agents.length + (runSeq cfg (on_eval_results s agents).1 rest).2.2)

/-! ## Concrete fixtures used by witnesses -/

/-- Small concrete configuration: bootstrap batch size 2, two mutations per
policy. -/
def cfgW : Config :=
  { random_init_batch := 2
    eval_batch_size := 4
    proportion_evo := 1/2
    mutations_per_policy := 2
    num_agents := 2
    random_init := 3 }

/-- Freshly constructed operator over the pool `{0,…,4}`, both stages
configured, empty archive. -/
def sW : VarState := initState {0, 1, 2, 3, 4} [] true true

/-- Freshly constructed operator over the pool `{0}` (too small for the
batch size of `cfgW`). -/
def sSmall : VarState := initState {0} [] true true

/-- Configuration with unit batch sizes for the counter-sequence runs. -/
def cfgOne : Config :=
  { random_init_batch := 1
    eval_batch_size := 1
    proportion_evo := 1
    mutations_per_policy := 1
    num_agents := 1
    random_init := 1 }

/-- Mutation-only operator over the pool `{0}`. -/
def sOne : VarState := initState {0} [] false true

/-- Balanced interleaving: one successful unit submission, then one report of
one evaluated agent. -/
def esBalanced : List SeqEvent :=
  [SeqEvent.submit true [0] [], SeqEvent.results [9]]

/-- Over-reported sequence: one agent reported back with nothing submitted. -/
def esOver : List SeqEvent := [SeqEvent.results [9]]

/-- Configuration whose bootstrap threshold `random_init = 0` is already
passed by a single archive entry, forcing steady-state rounds. -/
def steadyCfg : Config :=
  { random_init_batch := 1
    eval_batch_size := 1
    proportion_evo := 1
    mutations_per_policy := 1
    num_agents := 1
    random_init := 0 }

/-- Constructed operator whose archive holds the single elite key 5 (which is
also free), putting `maybe_mutate_new_batch` in steady-state mode. -/
def steadyState : VarState := initState {5} [(5, 0)] true true

/-! ## Helper lemmas -/

theorem repeatEach_nil (m : ℕ) : repeatEach [] m = [] := rfl

theorem repeatEach_cons (a : ℕ) (l : List ℕ) (m : ℕ) :
    repeatEach (a :: l) m = List.replicate m a ++ repeatEach l m := by
  simp [repeatEach]

theorem repeatEach_length (l : List ℕ) (m : ℕ) :
    (repeatEach l m).length = l.length * m := by
  induction l with
  | nil => simp [repeatEach]
  | cons a l ih =>
    rw [repeatEach_cons, List.length_append, List.length_replicate, ih,
      List.length_cons]
    ring

theorem mem_repeatEach (a : ℕ) (l : List ℕ) (m : ℕ) (hm : 0 < m) :
    a ∈ repeatEach l m ↔ a ∈ l := by
  induction l with
  | nil => simp [repeatEach]
  | cons b l ih =>
    rw [repeatEach_cons]
    simp only [List.mem_append, List.mem_replicate, List.mem_cons, ih]
    constructor
    · rintro (⟨-, h⟩ | h)
      · exact Or.inl h
      · exact Or.inr h
    · rintro (h | h)
      · exact Or.inl ⟨hm.ne', h⟩
      · exact Or.inr h

theorem toFinset_repeatEach (l : List ℕ) (m : ℕ) (hm : 0 < m) :
    (repeatEach l m).toFinset = l.toFinset := by
  ext a
  simp [List.mem_toFinset, mem_repeatEach a l m hm]

theorem replicate_union_of_not_mem (a : ℕ) (ys : List ℕ) (m : ℕ)
    (hm : 0 < m) (ha : a ∉ ys) : List.replicate m a ∪ ys = a :: ys := by
  induction m with
  | zero => exact absurd hm (lt_irrefl 0)
  | succ n ih =>
    rw [List.replicate_succ, List.cons_union]
    rcases Nat.eq_zero_or_pos n with h0 | hpos
    · subst h0
      rw [List.replicate_zero, List.nil_union]
      exact List.insert_of_not_mem ha
    · rw [ih hpos]
      exact List.insert_of_mem (List.mem_cons_self a ys)

theorem dedup_repeatEach (l : List ℕ) (m : ℕ) (hm : 0 < m)
    (hl : l.Nodup) : (repeatEach l m).dedup = l := by
  induction l with
  | nil => simp [repeatEach]
  | cons a l ih =>
    have hnotmem : a ∉ l := (List.nodup_cons.mp hl).1
    have hl2 : l.Nodup := (List.nodup_cons.mp hl).2
    rw [repeatEach_cons, List.dedup_append, ih hl2]
    exact replicate_union_of_not_mem a l m hm hnotmem

theorem actorXIds_eq (cfg : Config) (s : VarState) (xDraw : List ℕ)
    (hops : (s.mutation_configured || s.crossover_configured) = true) :
    actorXIds cfg s xDraw = repeatEach xDraw cfg.mutations_per_policy := by
  unfold actorXIds
  cases hmu : s.mutation_configured <;> cases hco : s.crossover_configured <;>
    simp_all

theorem no_skip_of_draw (cfg : Config) (s : VarState) (init : Bool)
    (xDraw : List ℕ) (hnd : xDraw.Nodup)
    (hlen : xDraw.length = batchSizeOf cfg init)
    (hsub : ∀ k ∈ xDraw, k ∈ freeCandidates s init) :
    ¬ (freeCandidates s init).card < batchSizeOf cfg init := by
  have hsubset : xDraw.toFinset ⊆ freeCandidates s init := by
    intro k hk
    exact hsub k (List.mem_toFinset.mp hk)
  have hcard : xDraw.toFinset.card = xDraw.length :=
    List.toFinset_card_of_nodup hnd
  have := Finset.card_le_card hsubset
  omega

theorem evolve_batch_run_effects (cfg : Config) (s : VarState)
    (init : Bool) (xDraw yDraw : List ℕ)
    (hops : (s.mutation_configured || s.crossover_configured) = true)
    (hM : 0 < cfg.mutations_per_policy)
    (hnd : xDraw.Nodup)
    (hlen : xDraw.length = batchSizeOf cfg init)
    (hsub : ∀ k ∈ xDraw, k ∈ freeCandidates s init) :
    (evolve_batch cfg s init xDraw yDraw).warned = false ∧
    (evolve_batch cfg s init xDraw yDraw).state.free_policy_keys =
      s.free_policy_keys \ xDraw.toFinset ∧
    (evolve_batch cfg s init xDraw yDraw).cacheWrites =
      xDraw.map (fun k => (k, cfg.mutations_per_policy)) ∧
    (evolve_batch cfg s init xDraw yDraw).queuePuts = [xDraw] ∧
    (evolve_batch cfg s init xDraw yDraw).state.queued_for_eval =
      s.queued_for_eval + ((xDraw.length * cfg.mutations_per_policy : ℕ) : ℤ) ∧
    (evolve_batch cfg s init xDraw yDraw).emits.length = 1 := by
  have hns := no_skip_of_draw cfg s init xDraw hnd hlen hsub
  have hA := actorXIds_eq cfg s xDraw hops
  simp [evolve_batch, if_neg hns, hA,
    toFinset_repeatEach xDraw cfg.mutations_per_policy hM,
    dedup_repeatEach xDraw cfg.mutations_per_policy hM hnd,
    repeatEach_length]

/-! ## Claims -/

/-- C1: every non-skipped `evolve_batch` call (with at least one operator
configured and a positive `mutations_per_policy`) removes exactly the `B`
drawn `X` keys from the free pool, writes `mutations_per_policy` children into
the EvalCache entry of each unique claimed key, enqueues the unique `X` key
list once on the evaluation-submission queue, increases the in-flight counter
by exactly `B * mutations_per_policy`, and emits exactly one
"ready to evaluate" notification. -/
theorem evolve_batch_success_effects (cfg : Config) (s : VarState)
    (init : Bool) (xDraw yDraw : List ℕ)
    (hops : (s.mutation_configured || s.crossover_configured) = true)
    (hM : 0 < cfg.mutations_per_policy)
    (hnd : xDraw.Nodup)
    (hlen : xDraw.length = batchSizeOf cfg init)
    (hsub : ∀ k ∈ xDraw, k ∈ freeCandidates s init) :
    (evolve_batch cfg s init xDraw yDraw).warned = false ∧
    (evolve_batch cfg s init xDraw yDraw).state.free_policy_keys =
      s.free_policy_keys \ xDraw.toFinset ∧
    (evolve_batch cfg s init xDraw yDraw).cacheWrites =
      xDraw.map (fun k => (k, cfg.mutations_per_policy)) ∧
    (evolve_batch cfg s init xDraw yDraw).queuePuts = [xDraw] ∧
    (evolve_batch cfg s init xDraw yDraw).state.queued_for_eval =
      s.queued_for_eval + ((xDraw.length * cfg.mutations_per_policy : ℕ) : ℤ) ∧
    (evolve_batch cfg s init xDraw yDraw).emits.length = 1 :=
  evolve_batch_run_effects cfg s init xDraw yDraw hops hM hnd hlen hsub

/-- Witness for C1: a concrete bootstrap round (pool `{0,…,4}`, batch size 2,
2 mutations per policy, drawn keys `[0, 1]`) behaves as claimed. -/
theorem evolve_batch_success_effects_witness :
    ((sW.mutation_configured || sW.crossover_configured) = true ∧
      0 < cfgW.mutations_per_policy ∧
      ([0, 1] : List ℕ).Nodup ∧
      ([0, 1] : List ℕ).length = batchSizeOf cfgW true ∧
      (∀ k ∈ ([0, 1] : List ℕ), k ∈ freeCandidates sW true)) ∧
    (evolve_batch cfgW sW true [0, 1] [2, 3]).state.free_policy_keys =
      sW.free_policy_keys \ ([0, 1] : List ℕ).toFinset ∧
    (evolve_batch cfgW sW true [0, 1] [2, 3]).queuePuts = [[0, 1]] ∧
    (evolve_batch cfgW sW true [0, 1] [2, 3]).state.queued_for_eval =
      sW.queued_for_eval + (4 : ℤ) :=
  ⟨⟨by decide, by decide, by decide, by decide, by decide⟩,
    (evolve_batch_success_effects cfgW sW true [0, 1] [2, 3] (by decide)
      (by decide) (by decide) (by decide) (by decide)).2.1,
    (evolve_batch_success_effects cfgW sW true [0, 1] [2, 3] (by decide)
      (by decide) (by decide) (by decide) (by decide)).2.2.2.1,
    (evolve_batch_success_effects cfgW sW true [0, 1] [2, 3] (by decide)
      (by decide) (by decide) (by decide) (by decide)).2.2.2.2.1⟩

/-- C2: when the intersection of the candidate keys with the free pool is
smaller than the required batch size, `evolve_batch` only logs a warning and
returns: the state (free pool and counter) is unchanged and there are no
cache writes, no queue submissions and no emissions. -/
theorem evolve_batch_starvation_skip (cfg : Config) (s : VarState)
    (init : Bool) (xDraw yDraw : List ℕ)
    (h : (freeCandidates s init).card < batchSizeOf cfg init) :
    evolve_batch cfg s init xDraw yDraw = ⟨s, true, [], [], [], 0⟩ := by
  unfold evolve_batch
  rw [if_pos h]

/-- Witness for C2: with pool `{0}` and bootstrap batch size 2 the round is
skipped and changes nothing. -/
theorem evolve_batch_starvation_skip_witness :
    (freeCandidates sSmall true).card < batchSizeOf cfgW true ∧
    evolve_batch cfgW sSmall true [0] [0] =
      ⟨sSmall, true, [], [], [], 0⟩ :=
  ⟨by decide, evolve_batch_starvation_skip cfgW sSmall true [0] [0] (by decide)⟩

/-- C10: with a crossover operator configured, `evolve_batch` removes only the
drawn `X` parent keys from the free pool; every key drawn only as a `Y` parent
(and not also as an `X` parent) is still in the free pool after the round. -/
theorem evolve_batch_y_parents_stay_free (cfg : Config) (s : VarState)
    (init : Bool) (xDraw yDraw : List ℕ)
    (hc : s.crossover_configured = true)
    (hM : 0 < cfg.mutations_per_policy)
    (hnd : xDraw.Nodup)
    (hlen : xDraw.length = batchSizeOf cfg init)
    (hxsub : ∀ k ∈ xDraw, k ∈ freeCandidates s init)
    (hysub : ∀ k ∈ yDraw, k ∈ freeCandidates s init) :
    (evolve_batch cfg s init xDraw yDraw).state.free_policy_keys =
      s.free_policy_keys \ xDraw.toFinset ∧
    ∀ k ∈ yDraw, k ∉ xDraw →
      k ∈ (evolve_batch cfg s init xDraw yDraw).state.free_policy_keys := by
  have hops : (s.mutation_configured || s.crossover_configured) = true := by
    rw [hc, Bool.or_true]
  have hfree := (evolve_batch_run_effects cfg s init xDraw yDraw hops hM
    hnd hlen hxsub).2.1
  refine ⟨hfree, ?_⟩
  intro k hky hknx
  rw [hfree, Finset.mem_sdiff]
  refine ⟨?_, ?_⟩
  · exact Finset.mem_of_mem_inter_left (hysub k hky)
  · intro hmem
    exact hknx (List.mem_toFinset.mp hmem)

/-- Witness for C10: with `X` draw `[0, 1]` and `Y` draw `[2, 3]`, the keys 2
and 3 are still free after the round. -/
theorem evolve_batch_y_parents_stay_free_witness :
    (sW.crossover_configured = true ∧ 0 < cfgW.mutations_per_policy ∧
      ([0, 1] : List ℕ).Nodup ∧
      ([0, 1] : List ℕ).length = batchSizeOf cfgW true ∧
      (∀ k ∈ ([0, 1] : List ℕ), k ∈ freeCandidates sW true) ∧
      (∀ k ∈ ([2, 3] : List ℕ), k ∈ freeCandidates sW true)) ∧
    (2 ∈ (evolve_batch cfgW sW true [0, 1] [2, 3]).state.free_policy_keys) :=
  ⟨⟨by decide, by decide, by decide, by decide, by decide, by decide⟩,
    (evolve_batch_y_parents_stay_free cfgW sW true [0, 1] [2, 3] (by decide)
        (by decide) (by decide) (by decide) (by decide) (by decide)).2
      2 (by decide) (by decide)⟩

theorem evolve_batch_queued_delta (cfg : Config) (s : VarState) (init : Bool)
    (xDraw yDraw : List ℕ) :
    (evolve_batch cfg s init xDraw yDraw).state.queued_for_eval =
      s.queued_for_eval + ((evolve_batch cfg s init xDraw yDraw).submitted : ℤ) := by
  unfold evolve_batch
  split
  · simp
  · rfl

theorem runSeq_queued (cfg : Config) (es : List SeqEvent) (s : VarState) :
    (runSeq cfg s es).1.queued_for_eval =
      s.queued_for_eval + ((runSeq cfg s es).2.1 : ℤ) -
        ((runSeq cfg s es).2.2 : ℤ) := by
  induction es generalizing s with
  | nil => simp [runSeq]
  | cons e rest ih =>
    cases e with
    | submit init xD yD =>
      have h1 := evolve_batch_queued_delta cfg s init xD yD
      have h2 := ih (evolve_batch cfg s init xD yD).state
      simp only [runSeq]
      push_cast at *
      omega
    | results agents =>
      have h2 := ih (on_eval_results s agents).1
      simp only [runSeq, on_eval_results] at *
      push_cast at *
      omega

/-- C7: over any interleaved sequence of `evolve_batch` submissions and
`on_eval_results` completion reports, the in-flight counter `queued_for_eval`
ends at its initial value plus submitted-total minus reported-total; with
matching cardinalities it returns exactly to its pre-sequence value, an
over-reported sequence drives it below that value, and from zero an
over-reported sequence drives it observably negative. -/
theorem in_flight_counter_balance (cfg : Config) (s : VarState)
    (es : List SeqEvent) :
    ((runSeq cfg s es).1.queued_for_eval =
      s.queued_for_eval + ((runSeq cfg s es).2.1 : ℤ) -
        ((runSeq cfg s es).2.2 : ℤ)) ∧
    ((runSeq cfg s es).2.1 = (runSeq cfg s es).2.2 →
      (runSeq cfg s es).1.queued_for_eval = s.queued_for_eval) ∧
    ((runSeq cfg s es).2.1 < (runSeq cfg s es).2.2 →
      (runSeq cfg s es).1.queued_for_eval < s.queued_for_eval) ∧
    (s.queued_for_eval = 0 → (runSeq cfg s es).2.1 < (runSeq cfg s es).2.2 →
      (runSeq cfg s es).1.queued_for_eval < 0) := by
  have h := runSeq_queued cfg es s
  refine ⟨h, ?_, ?_, ?_⟩
  · intro heq
    rw [h, heq]
    ring
  · intro hlt
    rw [h]
    have : ((runSeq cfg s es).2.1 : ℤ) < ((runSeq cfg s es).2.2 : ℤ) := by
      exact_mod_cast hlt
    omega
  · intro h0 hlt
    rw [h, h0]
    have : ((runSeq cfg s es).2.1 : ℤ) < ((runSeq cfg s es).2.2 : ℤ) := by
      exact_mod_cast hlt
    omega

/-- Witness for C7: a balanced run (one unit submission, one report) restores
the counter, and an over-reported run from zero drives it negative. -/
theorem in_flight_counter_balance_witness :
    ((runSeq cfgOne sOne esBalanced).2.1 = (runSeq cfgOne sOne esBalanced).2.2 ∧
      (runSeq cfgOne sOne esBalanced).1.queued_for_eval =
        sOne.queued_for_eval) ∧
    (sOne.queued_for_eval = 0 ∧
      (runSeq cfgOne sOne esOver).2.1 < (runSeq cfgOne sOne esOver).2.2 ∧
      (runSeq cfgOne sOne esOver).1.queued_for_eval < 0) :=
  ⟨⟨by decide,
    (in_flight_counter_balance cfgOne sOne esBalanced).2.1 (by decide)⟩,
    ⟨by decide, by decide,
      (in_flight_counter_balance cfgOne sOne esOver).2.2.2 (by decide)
        (by decide)⟩⟩

/-- C8 counterexample: an `on_eval_results` call that drives the counter
negative (one agent reported with nothing in flight) logs at debug level, not
as a warning — the claimed warning does not exist in the handler. -/
theorem neg_counter_logged_at_debug_not_warning :
    (on_eval_results sOne [9]).1.queued_for_eval < 0 ∧
    (on_eval_results sOne [9]).2.level = LogLevel.debug ∧
    LogLevel.debug ≠ LogLevel.warning := by
  refine ⟨by decide, rfl, by decide⟩

/-- C8 (amended): `on_eval_results` always decrements the counter by the
reported count, never halts or raises (it is a total function of the state),
and unconditionally logs the count and the updated counter value at debug
level — so a counter driven negative is visible in that debug log, but no
warning is emitted. -/
theorem on_eval_results_debug_decrement (s : VarState) (agents : List ℕ) :
    on_eval_results s agents =
      ({ s with queued_for_eval := s.queued_for_eval - agents.length },
        ⟨LogLevel.debug, agents.length,
          s.queued_for_eval - agents.length⟩) ∧
    ((on_eval_results s agents).1.queued_for_eval < 0 →
      (on_eval_results s agents).2.counterValue < 0 ∧
      (on_eval_results s agents).2.level ≠ LogLevel.warning) := by
  refine ⟨rfl, ?_⟩
  intro hneg
  exact ⟨hneg, by simp [on_eval_results]⟩

/-- Witness for C8 (amended): a concrete over-report is visible as a negative
counter value inside the debug log entry. -/
theorem on_eval_results_debug_decrement_witness :
    (on_eval_results sOne [7, 8]).1.queued_for_eval < 0 ∧
    ((on_eval_results sOne [7, 8]).2.counterValue < 0 ∧
      (on_eval_results sOne [7, 8]).2.level ≠ LogLevel.warning) :=
  ⟨by decide, (on_eval_results_debug_decrement sOne [7, 8]).2 (by decide)⟩

/-- C4 (code bug): the `to_evaluate` emission carries `self.init_mode`, which
is set to `True` in the constructor and never reassigned — no handler updates
it — so even a steady-state round (archive past the `random_init` threshold,
round argument `init = False`) emits bootstrap flag `True`.  Concretely: with
`random_init = 0` and one archive entry, `maybe_mutate_new_batch` computes
`init = False` for the round yet the emitted flag is `True`. -/
theorem to_evaluate_flag_stuck_at_construction :
    (∀ cfg s init xDraw yDraw,
      (evolve_batch cfg s init xDraw yDraw).state.init_mode = s.init_mode) ∧
    decide (steadyState.elites_map.length ≤ steadyCfg.random_init) = false ∧
    (maybe_mutate_new_batch steadyCfg steadyState [5] [5]).emits = [true] := by
  refine ⟨?_, by decide, ?_⟩
  · intro cfg s init xDraw yDraw
    unfold evolve_batch
    split <;> rfl
  · have hb : batchSizeOf steadyCfg false = 1 := by
      show (⌊((1 : ℕ) : ℚ) * (1 : ℚ)⌋).toNat = 1
      norm_num
    have hnoskip : ¬ (freeCandidates steadyState false).card <
        batchSizeOf steadyCfg false := by
      rw [hb]
      decide
    show (evolve_batch steadyCfg steadyState
      (decide (steadyState.elites_map.length ≤ steadyCfg.random_init))
      [5] [5]).emits = [true]
    unfold evolve_batch
    rw [if_neg (by exact hnoskip)]
    rfl

theorem weightOrBiasCond_true (t : String) : weightOrBiasCond t = true := by
  unfold weightOrBiasCond
  exact if_pos (by decide)

theorem isoCombine_getElem (b : ℚ) :
    ∀ (x y a : List ℚ) (i : ℕ) (xi yi ai : ℚ),
      x[i]? = some xi → y[i]? = some yi → a[i]? = some ai →
      (isoCombine b x y a)[i]? = some (xi + ai + b * (yi - xi))
  | xh :: xs, yh :: ys, ah :: as2, 0, xi, yi, ai, hx, hy, ha => by
    simp only [List.getElem?_cons_zero, Option.some.injEq] at hx hy ha
    subst hx; subst hy; subst ha
    simp [isoCombine]
  | xh :: xs, yh :: ys, ah :: as2, i + 1, xi, yi, ai, hx, hy, ha => by
    simp only [List.getElem?_cons_succ] at hx hy ha
    simpa [isoCombine] using
      isoCombine_getElem b xs ys as2 i xi yi ai hx hy ha
  | [], _, _, i, xi, yi, ai, hx, hy, ha => by
    simp at hx
  | _ :: _, [], _, i, xi, yi, ai, hx, hy, ha => by
    simp at hy
  | _ :: _, _ :: _, [], i, xi, yi, ai, hx, hy, ha => by
    simp at ha

theorem clampQ_mem_Icc (lo hi v : ℚ) (h : lo ≤ hi) :
    lo ≤ clampQ lo hi v ∧ clampQ lo hi v ≤ hi := by
  unfold clampQ
  constructor
  · exact le_min h (le_max_left lo v)
  · exact min_le_left hi (max lo v)

/-- C5 counterexample: with only `max_gene` truthy (`min_gene` unset, as in
the constructor defaults with `max_gene=5`), the claim predicts the unclamped
`z = x + a + U·(y-x) = -1`, but `iso_dd` clamps — `not self.max and not
self.min` is false as soon as one bound is truthy — and returns `0`. -/
theorem iso_dd_clamps_with_single_bound :
    iso_dd none (some 5) [0] 0 [-1] [-1] = [0] ∧
    isoCombine 0 [-1] [-1] [0] = [-1] ∧
    iso_dd none (some 5) [0] 0 [-1] [-1] ≠ isoCombine 0 [-1] [-1] [0] := by
  refine ⟨?_, ?_, ?_⟩ <;>
    norm_num [iso_dd, isoCombine, clampQ, min_def, max_def]

/-- C5 (amended): `iso_dd` computes `z = x + a + U·(y−x)` elementwise, with
the line coefficient `U` a single per-call scalar applied uniformly to every
element; the result is returned unclamped iff neither bound is truthy; if at
least one bound is truthy the whole result is clamped with
`torch.clamp(z, min, max)` (an unset bound entering as `0`); and when both
bounds are configured with `min ≤ max` every output element lies within
`[min_gene, max_gene]`. -/
theorem iso_dd_formula_and_clamp (mn mx : Option ℚ) (a : List ℚ) (b : ℚ)
    (x y : List ℚ) :
    (∀ (i : ℕ) (xi yi ai : ℚ),
      x[i]? = some xi → y[i]? = some yi → a[i]? = some ai →
      (iso_dd none none a b x y)[i]? = some (xi + ai + b * (yi - xi))) ∧
    (mn ≠ none ∨ mx ≠ none →
      iso_dd mn mx a b x y =
        (isoCombine b x y a).map (clampQ (mn.getD 0) (mx.getD 0))) ∧
    (∀ lo hi : ℚ, lo ≤ hi →
      ∀ v ∈ iso_dd (some lo) (some hi) a b x y, lo ≤ v ∧ v ≤ hi) := by
  refine ⟨?_, ?_, ?_⟩
  · intro i xi yi ai hx hy ha
    simpa [iso_dd] using isoCombine_getElem b x y a i xi yi ai hx hy ha
  · intro h
    match mn, mx with
    | none, none => exact absurd h (by simp)
    | some lo, none => rfl
    | none, some hi => rfl
    | some lo, some hi => rfl
  · intro lo hi hle v hv
    simp only [iso_dd, List.mem_map] at hv
    obtain ⟨u, -, rfl⟩ := hv
    exact clampQ_mem_Icc lo hi u hle

/-- Witness for C5 (amended): concrete formula instance and concrete clamp
bounds `[0, 1]` containing every output element. -/
theorem iso_dd_formula_and_clamp_witness :
    ((iso_dd none none [3] 2 [5] [7])[0]? = some (5 + 3 + 2 * (7 - 5))) ∧
    ((0 : ℚ) ≤ 1 ∧
      ∀ v ∈ iso_dd (some 0) (some 1) [3] 2 [5] [7], 0 ≤ v ∧ v ≤ 1) :=
  ⟨(iso_dd_formula_and_clamp none none [3] 2 [5] [7]).1 0 5 7 3 rfl rfl rfl,
    ⟨by norm_num,
      (iso_dd_formula_and_clamp (some 0) (some 1) [3] 2 [5] [7]).2.2 0 1
        (by norm_num)⟩⟩

theorem gmutCore_not_selected (rate : ℚ) (noise : ℕ → ℚ) :
    ∀ (k : ℕ) (x m : List ℚ) (i : ℕ) (xi mi : ℚ),
      x[i]? = some xi → m[i]? = some mi → ¬ mi < rate →
      (gmutCore rate noise k x m)[i]? = some xi
  | k, [], m, i, xi, mi, hx, hm, hsel => by simp at hx
  | k, xh :: xs, [], i, xi, mi, hx, hm, hsel => by simp at hm
  | k, xh :: xs, mh :: ms, 0, xi, mi, hx, hm, hsel => by
    simp only [List.getElem?_cons_zero, Option.some.injEq] at hx hm
    subst hx; subst hm
    rw [gmutCore, if_neg hsel]
    simp
  | k, xh :: xs, mh :: ms, i + 1, xi, mi, hx, hm, hsel => by
    simp only [List.getElem?_cons_succ] at hx hm
    rw [gmutCore]
    by_cases hh : mh < rate
    · rw [if_pos hh]
      simpa using gmutCore_not_selected rate noise (k + 1) xs ms i xi mi hx hm hsel
    · rw [if_neg hh]
      simpa using gmutCore_not_selected rate noise k xs ms i xi mi hx hm hsel

theorem gmutCore_selected (rate : ℚ) (noise : ℕ → ℚ) :
    ∀ (k : ℕ) (x m : List ℚ) (i : ℕ) (xi mi : ℚ),
      x[i]? = some xi → m[i]? = some mi → mi < rate →
      ∃ j, (gmutCore rate noise k x m)[i]? = some (xi + noise j)
  | k, [], m, i, xi, mi, hx, hm, hsel => by simp at hx
  | k, xh :: xs, [], i, xi, mi, hx, hm, hsel => by simp at hm
  | k, xh :: xs, mh :: ms, 0, xi, mi, hx, hm, hsel => by
    simp only [List.getElem?_cons_zero, Option.some.injEq] at hx hm
    subst hx; subst hm
    rw [gmutCore, if_pos hsel]
    exact ⟨k, by simp⟩
  | k, xh :: xs, mh :: ms, i + 1, xi, mi, hx, hm, hsel => by
    simp only [List.getElem?_cons_succ] at hx hm
    rw [gmutCore]
    by_cases hh : mh < rate
    · rw [if_pos hh]
      obtain ⟨j, hj⟩ := gmutCore_selected rate noise (k + 1) xs ms i xi mi hx hm hsel
      exact ⟨j, by simpa using hj⟩
    · rw [if_neg hh]
      obtain ⟨j, hj⟩ := gmutCore_selected rate noise k xs ms i xi mi hx hm hsel
      exact ⟨j, by simpa using hj⟩

theorem gmutCore_rate_zero (noise : ℕ → ℚ) :
    ∀ (k : ℕ) (x m : List ℚ), (∀ v ∈ m, 0 ≤ v) →
      gmutCore 0 noise k x m = x
  | k, [], m, hm => rfl
  | k, xh :: xs, [], hm => rfl
  | k, xh :: xs, mh :: ms, hm => by
    rw [gmutCore, if_neg (not_lt.mpr (hm mh (List.mem_cons_self mh ms)))]
    rw [gmutCore_rate_zero noise k xs ms (fun v hv => hm v (List.mem_cons_of_mem mh hv))]

theorem gmutCore_noise_congr (rate : ℚ) :
    ∀ (k : ℕ) (x m : List ℚ) (n1 n2 : ℕ → ℚ),
      (∀ j, k ≤ j → j < k + selCount rate x m → n1 j = n2 j) →
      gmutCore rate n1 k x m = gmutCore rate n2 k x m
  | k, [], m, n1, n2, h => rfl
  | k, xh :: xs, [], n1, n2, h => rfl
  | k, xh :: xs, mh :: ms, n1, n2, h => by
    rw [gmutCore, gmutCore]
    by_cases hh : mh < rate
    · rw [if_pos hh, if_pos hh]
      have hcnt : selCount rate (xh :: xs) (mh :: ms) =
          1 + selCount rate xs ms := by
        rw [selCount, if_pos hh]
      have hk : n1 k = n2 k := by
        refine h k le_rfl ?_
        omega
      rw [hk, gmutCore_noise_congr rate (k + 1) xs ms n1 n2
        (fun j hj1 hj2 => h j (by omega) (by omega))]
    · rw [if_neg hh, if_neg hh]
      have hcnt : selCount rate (xh :: xs) (mh :: ms) = selCount rate xs ms := by
        rw [selCount, if_neg hh]
        omega
      rw [gmutCore_noise_congr rate k xs ms n1 n2
        (fun j hj1 hj2 => h j hj1 (by omega))]

theorem reshapeLike_flatten (x : List (List ℚ)) :
    reshapeLike x x.flatten = x := by
  induction x with
  | nil => rfl
  | cons r rs ih =>
    rw [List.flatten_cons, reshapeLike, List.take_left, List.drop_left, ih]

theorem reshapeLike3_flatten (x : List (List (List ℚ))) :
    reshapeLike3 x (x.map List.flatten).flatten = x := by
  induction x with
  | nil => rfl
  | cons r rs ih =>
    rw [List.map_cons, List.flatten_cons, reshapeLike3, List.take_left,
      List.drop_left, ih, reshapeLike_flatten]

/-- C6 counterexample: with clamp bounds configured (`min=1`, `max=5`) and
`mutation_rate = 0`, no element is selected and no noise is added, yet the
output of `gaussian_mutation` on input `[10]` is the clamped `[5]`, not the
input: the final `torch.clamp` also rewrites unselected elements. -/
theorem gaussian_mutation_rate_zero_clamped :
    gaussian_mutation 0 (some 1) (some 5) (fun _ => 0) [10] [1/2] = [5] ∧
    gaussian_mutation 0 (some 1) (some 5) (fun _ => 0) [10] [1/2] ≠ [10] := by
  constructor <;>
    norm_num [gaussian_mutation, gmutCore, clampQ, min_def, max_def]

/-- C6 (amended): absent clamp bounds, `gaussian_mutation` adds one fresh
noise sample to exactly the elements whose uniform mask draw is below
`mutation_rate`, leaves every unselected element unchanged (so with
`mutation_rate = 0` the output equals the input exactly, for tensors of rank
1, 2 and 3), and reads only as many noise samples as there are selected
elements; when a clamp bound is configured the entire output (selected or
not) is additionally clamped. -/
theorem gaussian_mutation_selection (rate : ℚ) (noise : ℕ → ℚ) :
    (∀ (x m : List ℚ) (i : ℕ) (xi mi : ℚ),
      x[i]? = some xi → m[i]? = some mi → ¬ mi < rate →
      (gaussian_mutation rate none none noise x m)[i]? = some xi) ∧
    (∀ (x m : List ℚ) (i : ℕ) (xi mi : ℚ),
      x[i]? = some xi → m[i]? = some mi → mi < rate →
      ∃ j, (gaussian_mutation rate none none noise x m)[i]? =
        some (xi + noise j)) ∧
    (∀ x m : List ℚ, (∀ v ∈ m, 0 ≤ v) →
      gaussian_mutation 0 none none noise x m = x) ∧
    (∀ x m : List (List ℚ), (∀ row ∈ m, ∀ v ∈ row, 0 ≤ v) →
      gaussian_mutation2 0 none none noise x m = x) ∧
    (∀ x m : List (List (List ℚ)), (∀ p ∈ m, ∀ row ∈ p, ∀ v ∈ row, 0 ≤ v) →
      gaussian_mutation3 0 none none noise x m = x) ∧
    (∀ (x m : List ℚ) (n2 : ℕ → ℚ),
      (∀ j, j < selCount rate x m → noise j = n2 j) →
      gaussian_mutation rate none none noise x m =
        gaussian_mutation rate none none n2 x m) := by
  refine ⟨?_, ?_, ?_, ?_, ?_, ?_⟩
  · intro x m i xi mi hx hm hsel
    simpa [gaussian_mutation] using
      gmutCore_not_selected rate noise 0 x m i xi mi hx hm hsel
  · intro x m i xi mi hx hm hsel
    simpa [gaussian_mutation] using
      gmutCore_selected rate noise 0 x m i xi mi hx hm hsel
  · intro x m hm
    simpa [gaussian_mutation] using gmutCore_rate_zero noise 0 x m hm
  · intro x m hm
    have hflat : ∀ v ∈ m.flatten, 0 ≤ v := by
      intro v hv
      obtain ⟨row, hrow, hvrow⟩ := List.mem_flatten.mp hv
      exact hm row hrow v hvrow
    have hz : gaussian_mutation 0 none none noise x.flatten m.flatten =
        x.flatten := by
      simpa [gaussian_mutation] using
        gmutCore_rate_zero noise 0 x.flatten m.flatten hflat
    show reshapeLike x
      (gaussian_mutation 0 none none noise x.flatten m.flatten) = x
    rw [hz]
    exact reshapeLike_flatten x
  · intro x m hm
    have hflat : ∀ v ∈ (m.map List.flatten).flatten, 0 ≤ v := by
      intro v hv
      obtain ⟨row, hrow, hvrow⟩ := List.mem_flatten.mp hv
      obtain ⟨p, hp, rfl⟩ := List.mem_map.mp hrow
      obtain ⟨row2, hrow2, hvrow2⟩ := List.mem_flatten.mp hvrow
      exact hm p hp row2 hrow2 v hvrow2
    have hz : gaussian_mutation 0 none none noise (x.map List.flatten).flatten
        (m.map List.flatten).flatten = (x.map List.flatten).flatten := by
      simpa [gaussian_mutation] using gmutCore_rate_zero noise 0
        (x.map List.flatten).flatten (m.map List.flatten).flatten hflat
    show reshapeLike3 x (gaussian_mutation 0 none none noise
      (x.map List.flatten).flatten (m.map List.flatten).flatten) = x
    rw [hz]
    exact reshapeLike3_flatten x
  · intro x m n2 h
    show gmutCore rate noise 0 x m = gmutCore rate n2 0 x m
    exact gmutCore_noise_congr rate 0 x m noise n2
      (fun j hj1 hj2 => h j (by omega))

/-- Witness for C6 (amended): an unselected element is unchanged
(mask `1 ≥ rate 1/2`) and a rate-0 call is the identity. -/
theorem gaussian_mutation_selection_witness :
    (¬ (1 : ℚ) < 1/2 ∧
      (gaussian_mutation (1/2) none none (fun j => (j : ℚ) + 1)
        [4] [1])[0]? = some 4) ∧
    ((∀ v ∈ ([1] : List ℚ), 0 ≤ v) ∧
      gaussian_mutation 0 none none (fun j => (j : ℚ) + 1) [2] [1] = [2]) :=
  ⟨⟨by norm_num,
      (gaussian_mutation_selection (1/2) (fun j => (j : ℚ) + 1)).1
        [4] [1] 0 4 1 rfl rfl (by norm_num)⟩,
    ⟨by norm_num,
      (gaussian_mutation_selection 0 (fun j => (j : ℚ) + 1)).2.2.1
        [2] [1] (by norm_num)⟩⟩

/-- C3 (code bug): the tensor-name filter `'weight' or 'bias' in tensor`
is always truthy, so `batch_crossover` and `batch_mutation` apply the
operator to EVERY named tensor.  Concretely, a tensor named
`_action_log_std` (the extra parameter of the repo's `AntNN` policy, whose
name contains neither "weight" nor "bias") is rewritten by both, instead of
passing through unmodified as claimed. -/
theorem non_weight_bias_tensor_not_passed_through :
    weightOrBiasCond "_action_log_std" = true ∧
    biasInName "_action_log_std" = false ∧
    batch_crossover (fun tx ty => iso_dd none none [1] 0 tx ty)
        [("_action_log_std", [0])] [("_action_log_std", [0])] =
      [("_action_log_std", [1])] ∧
    batch_mutation
        (fun t => gaussian_mutation 1 none none (fun _ => 1) t
          (List.replicate t.length 0))
        [("_action_log_std", [0])] =
      [("_action_log_std", [1])] ∧
    ([("_action_log_std", [(1 : ℚ)])] : StateDict) ≠
      [("_action_log_std", [0])] := by
  refine ⟨weightOrBiasCond_true "_action_log_std", by decide, ?_, ?_, ?_⟩
  · norm_num [batch_crossover, weightOrBiasCond_true, iso_dd, isoCombine,
      List.lookup]
  · norm_num [batch_mutation, weightOrBiasCond_true, gaussian_mutation,
      gmutCore]
  · norm_num

theorem varOpMethods_of_crossover_name (name : String)
    (h : name = "sbx" ∨ name = "iso_dd") :
    ∃ f, varOpMethods name = some f := by
  rcases h with rfl | rfl
  · exact ⟨OperatorFn.sbx, rfl⟩
  · exact ⟨OperatorFn.iso_dd, rfl⟩

theorem varOpMethods_of_mutation_name (name : String)
    (h : name = "polynomial_mutation" ∨ name = "gaussian_mutation" ∨
      name = "uniform_mutation") :
    ∃ f, varOpMethods name = some f := by
  rcases h with rfl | rfl | rfl
  · exact ⟨OperatorFn.polynomial_mutation, rfl⟩
  · exact ⟨OperatorFn.gaussian_mutation, rfl⟩
  · exact ⟨OperatorFn.uniform_mutation, rfl⟩

/-- C9: construction never hard-fails on an operator name: every recognized
crossover name (`sbx`, `iso_dd`) and mutation name (`polynomial_mutation`,
`gaussian_mutation`, `uniform_mutation`) resolves to a concrete operator
method without a warning; every other name installs the no-op sentinel
`False` with a warning; both stages always construct successfully; and
`evo` runs crossover-only and mutation-only pipelines. -/
theorem construction_never_hard_fails :
    (∀ name, (name = "sbx" ∨ name = "iso_dd") →
      ∃ f, resolveCrossoverOp name = Except.ok ⟨StageInit.op f, false⟩) ∧
    (∀ name, ¬ (name = "sbx" ∨ name = "iso_dd") →
      resolveCrossoverOp name = Except.ok ⟨StageInit.sentinel, true⟩) ∧
    (∀ name, (name = "polynomial_mutation" ∨ name = "gaussian_mutation" ∨
        name = "uniform_mutation") →
      ∃ f, resolveMutationOp name = Except.ok ⟨StageInit.op f, false⟩) ∧
    (∀ name, ¬ (name = "polynomial_mutation" ∨ name = "gaussian_mutation" ∨
        name = "uniform_mutation") →
      resolveMutationOp name = Except.ok ⟨StageInit.sentinel, true⟩) ∧
    (∀ cn mn : String, (∃ r, resolveCrossoverOp cn = Except.ok r) ∧
      (∃ r, resolveMutationOp mn = Except.ok r)) ∧
    (∀ (x y : StateDict) (c : List ℚ → List ℚ → List ℚ),
      evo x y (some c) none = batch_crossover c x y) ∧
    (∀ (x : StateDict) (y : StateDict) (mo : List ℚ → List ℚ),
      evo x y none (some mo) = batch_mutation mo x) := by
  have hcross : ∀ name, ∃ r, resolveCrossoverOp name = Except.ok r := by
    intro name
    unfold resolveCrossoverOp
    by_cases h : name = "sbx" ∨ name = "iso_dd"
    · obtain ⟨f, hf⟩ := varOpMethods_of_crossover_name name h
      rw [if_pos h, hf]
      exact ⟨_, rfl⟩
    · rw [if_neg h]
      exact ⟨_, rfl⟩
  have hmut : ∀ name, ∃ r, resolveMutationOp name = Except.ok r := by
    intro name
    unfold resolveMutationOp
    by_cases h : name = "polynomial_mutation" ∨ name = "gaussian_mutation" ∨
        name = "uniform_mutation"
    · obtain ⟨f, hf⟩ := varOpMethods_of_mutation_name name h
      rw [if_pos h, hf]
      exact ⟨_, rfl⟩
    · rw [if_neg h]
      exact ⟨_, rfl⟩
  refine ⟨?_, ?_, ?_, ?_, fun cn mn => ⟨hcross cn, hmut mn⟩, ?_, ?_⟩
  · intro name h
    obtain ⟨f, hf⟩ := varOpMethods_of_crossover_name name h
    refine ⟨f, ?_⟩
    unfold resolveCrossoverOp
    rw [if_pos h, hf]
  · intro name h
    unfold resolveCrossoverOp
    rw [if_neg h]
  · intro name h
    obtain ⟨f, hf⟩ := varOpMethods_of_mutation_name name h
    refine ⟨f, ?_⟩
    unfold resolveMutationOp
    rw [if_pos h, hf]
  · intro name h
    unfold resolveMutationOp
    rw [if_neg h]
  · intro x y c
    rfl
  · intro x y mo
    rfl

/-- Witness for C9: `sbx` and `polynomial_mutation` resolve to concrete
operators; the unrecognized name `"none"` disables the stage with a warning. -/
theorem construction_never_hard_fails_witness :
    (∃ f, resolveCrossoverOp "sbx" = Except.ok ⟨StageInit.op f, false⟩) ∧
    resolveCrossoverOp "none" = Except.ok ⟨StageInit.sentinel, true⟩ ∧
    (∃ f, resolveMutationOp "polynomial_mutation" =
      Except.ok ⟨StageInit.op f, false⟩) ∧
    resolveMutationOp "none" = Except.ok ⟨StageInit.sentinel, true⟩ :=
  ⟨construction_never_hard_fails.1 "sbx" (Or.inl rfl),
    construction_never_hard_fails.2.1 "none" (by decide),
    construction_never_hard_fails.2.2.1 "polynomial_mutation" (Or.inl rfl),
    construction_never_hard_fails.2.2.2.1 "none" (by decide)⟩

end MapElites
